import Mathlib

/-!
Verification development for the `ab_engine_rust` chess engine
(`engine-svc/engines/ab_engine_rust`).  The move generator / board
representation (the external `chess` crate) is out of scope per the design:
positions carry the externally-provided facts (status, legal moves, hash,
checker count, en-passant square, clocks) as record fields, while everything
the engine itself computes (evaluation, move ordering, transposition table,
search) is translated function-by-function from the Rust sources
(`types.rs`, `eval.rs`, `ordering.rs`, `tt.rs`, `search.rs`, `main.rs`).

Scores, depths and plies are Rust `i32`; they are modelled as `Int`
(the engine keeps them far below the `i32` range, and no arithmetic in the
translated code can overflow there).  `u8` ages are `Nat` kept below 256,
with wrapping subtraction written out as `(256 + a - b) % 256`.
Rust `i32` division truncates toward zero, hence `Int.tdiv` below.
-/

namespace Engine

-- ---------------------------------------------------------------------------
-- Constants (types.rs lines 6-49)
-- ---------------------------------------------------------------------------

def MAX_AB_DEPTH : Int := 64

def INF : Int := 60000

def MATE : Int := 30000

def Q_INCLUDE_CHECKS : Bool := true

def Q_FUTILITY_MARGIN : Int := 150

def LMR_MIN_DEPTH : Int := 3

def LMR_BASE_REDUCTION : Int := 1

def FUTILITY_MARGIN_BASE : Int := 200

def MCP_MIN_DEPTH : Int := 3

def MCP_START_AT : Nat := 6

def ASP_WINDOW : Int := 24

def PHASE_MAX : Int := 24

-- Piece values P/N/B/R_/Q_ (types.rs lines 32-36)

def pawnV : Int := 100

def knightV : Int := 320

def bishopV : Int := 330

def rookV : Int := 500

def queenV : Int := 900

-- ---------------------------------------------------------------------------
-- Pieces, colors, board status
-- ---------------------------------------------------------------------------

inductive Piece where
  | pawn | knight | bishop | rook | queen | king
deriving DecidableEq, Repr

inductive Color where
  | white | black
deriving DecidableEq, Repr

inductive BStatus where
  | ongoing | checkmate | stalemate
deriving DecidableEq, Repr

/-- `opp` (types.rs line 132). -/
def opp : Color → Color
  | Color.white => Color.black
  | Color.black => Color.white

/-- `piece_val` (types.rs lines 117-122). -/
def piece_val : Piece → Int
  | Piece.pawn => pawnV
  | Piece.knight => knightV
  | Piece.bishop => bishopV
  | Piece.rook => rookV
  | Piece.queen => queenV
  | Piece.king => 0

/-- `piece_code` (types.rs lines 123-128). -/
def piece_code : Piece → Nat
  | Piece.pawn => 1
  | Piece.knight => 2
  | Piece.bishop => 3
  | Piece.rook => 4
  | Piece.queen => 5
  | Piece.king => 6

/-- `clamp` (types.rs lines 129-131): the correct saturating clamp used by the
library evaluator. -/
def clamp (v lo hi : Int) : Int :=
  if v < lo then lo else if v > hi then hi else v

/-- `clamp` as defined in `main.rs` lines 97-100.  Note the upper branch
returns `v`, not `hi`: the binary's clamp never clamps from above. -/
def clampMain (v lo hi : Int) : Int :=
  if v < lo then lo else if v > hi then v else v

-- ---------------------------------------------------------------------------
-- Moves and the 16-bit move codec (types.rs lines 277-297)
-- ---------------------------------------------------------------------------

/-- A move: from-square, to-square (square indices 0..63, `Square::to_index`)
and an optional promotion piece, mirroring `chess::ChessMove`. -/
structure Move where
  src : Fin 64
  dst : Fin 64
  promo : Option Piece
deriving DecidableEq, Repr

/-- Promotion code inside `pack_move`: the Rust `match` on `get_promotion()`
(types.rs lines 280-283); the wildcard maps anything else to 0. -/
def promoCode : Option Piece → Nat
  | some Piece.knight => 1
  | some Piece.bishop => 2
  | some Piece.rook => 3
  | some Piece.queen => 4
  | _ => 0

/-- `pack_move` (types.rs lines 277-285):
`(from & 63) | ((to & 63) << 6) | ((promo & 7) << 12)`. -/
def pack_move (m : Move) : Nat :=
  (m.src.val &&& 63) ||| ((m.dst.val &&& 63) <<< 6) ||| ((promoCode m.promo &&& 7) <<< 12)

/-- Promotion decoding inside `unpack_move`: the `match` on `(code >> 12) & 7`
(types.rs lines 292-295). -/
def promoFromCode (c : Nat) : Option Piece :=
  if c = 1 then some Piece.knight
  else if c = 2 then some Piece.bishop
  else if c = 3 then some Piece.rook
  else if c = 4 then some Piece.queen
  else none

/-- `unpack_move` (types.rs lines 286-297).  The square indices are masked to
6 bits, hence `< 64`. -/
def unpack_move (code : Nat) : Option Move :=
  if code = 0 then none
  else
    some { src := ⟨code &&& 63, Nat.lt_succ_of_le Nat.and_le_right⟩
           dst := ⟨(code >>> 6) &&& 63, Nat.lt_succ_of_le Nat.and_le_right⟩
           promo := promoFromCode ((code >>> 12) &&& 7) }

/-- Shape of every move the legal-move generator can emit: the two squares
differ, and a promotion (when present) is a knight, bishop, rook or queen. -/
def LegalShape (m : Move) : Prop :=
  m.src ≠ m.dst ∧
    (m.promo = none ∨ m.promo = some Piece.knight ∨ m.promo = some Piece.bishop ∨
      m.promo = some Piece.rook ∨ m.promo = some Piece.queen)

instance (m : Move) : Decidable (LegalShape m) := by
  unfold LegalShape; infer_instance

-- ---------------------------------------------------------------------------
-- Mate-score normalization (tt.rs lines 84-95, identical in main.rs 310-321)
-- ---------------------------------------------------------------------------

/-- `to_tt` (tt.rs lines 84-89). -/
def to_tt (score ply : Int) : Int :=
  if score ≥ MATE - MAX_AB_DEPTH then score + ply
  else if score ≤ -MATE + MAX_AB_DEPTH then score - ply
  else score

/-- `from_tt` (tt.rs lines 90-95). -/
def from_tt (score ply : Int) : Int :=
  if score ≥ MATE - MAX_AB_DEPTH then score - ply
  else if score ≤ -MATE + MAX_AB_DEPTH then score + ply
  else score

-- ---------------------------------------------------------------------------
-- Transposition table (tt.rs)
-- ---------------------------------------------------------------------------

-- TT flags (types.rs lines 300-302)

def EXACT : Int := 0

def ALPHA : Int := -1

def BETA : Int := 1

/-- `TTEntry` (tt.rs lines 4-12).  `depth` is an `i16` whose sentinel
`-32768` marks an empty slot; `age` is a `u8` kept below 256. -/
structure TTEntry where
  key : Nat
  depth : Int
  score : Int
  flag : Int
  age : Nat
  best : Nat
deriving DecidableEq, Repr

/-- `TTEntry::default` (tt.rs lines 13-17). -/
def defaultTTEntry : TTEntry :=
  { key := 0, depth := -32768, score := 0, flag := EXACT, age := 0, best := 0 }

instance : Inhabited TTEntry := ⟨defaultTTEntry⟩

def TT_ASSOC : Nat := 4

/-- `u8` wrapping subtraction `a.wrapping_sub(b)` for `a, b < 256`. -/
def wsub8 (a b : Nat) : Nat :=
  (256 + a % 256 - b % 256) % 256

/-- The `TT` struct (tt.rs lines 21-25): buckets of `TT_ASSOC` entries,
an index mask, and the current age. -/
structure TT where
  buckets : List (List TTEntry)
  mask : Nat
  age : Nat
deriving Repr

/-- The power-of-two loop in `TT::new_from_mb` (tt.rs lines 34-35):
`while (pow2 << 1) <= buckets { pow2 <<= 1 }`, starting from `pow2 = 1`.
The fuel argument bounds the iterations; `fuel = buckets` always suffices
because `pow2` doubles each round. -/
def pow2Loop (buckets : Nat) : Nat → Nat → Nat
  | 0, pow2 => pow2
  | fuel + 1, pow2 => if pow2 * 2 ≤ buckets then pow2Loop buckets fuel (pow2 * 2) else pow2

/-- `TT::new_from_mb` (tt.rs lines 27-42).  `entrySz` stands for
`size_of::<TTEntry>()`; the source applies `.max(1)` to it, computes the byte
budget, the entry budget (at least `TT_ASSOC`), the bucket budget (at least
1), and rounds the bucket count down to a power of two. -/
def new_from_mb (tt_mb entrySz : Nat) : TT :=
  let entry_sz := max entrySz 1
  let bytes := tt_mb * (1024 * 1024)
  let total_entries := max (bytes / entry_sz) TT_ASSOC
  let buckets0 := max (total_entries / TT_ASSOC) 1
  let buckets := pow2Loop buckets0 buckets0 1
  { buckets := List.replicate buckets (List.replicate TT_ASSOC defaultTTEntry)
    mask := buckets - 1
    age := 0 }

/-- Total entry capacity of a table: bucket count times associativity. -/
def ttEntryCount (tt : TT) : Nat :=
  tt.buckets.length * TT_ASSOC

/-- `TT::idx` (tt.rs line 43): `(key as usize) & self.mask`. -/
def ttIdx (tt : TT) (key : Nat) : Nat :=
  key &&& tt.mask

/-- The scan inside `TT::probe` (tt.rs lines 47-52): keep the matching
non-empty entry of greatest depth. -/
def probeLoop (key : Nat) : List TTEntry → Option TTEntry → Option TTEntry
  | [], best => best
  | e :: rest, best =>
    if e.key = key ∧ e.depth > -32768 then
      match best with
      | none => probeLoop key rest (some e)
      | some b => if e.depth > b.depth then probeLoop key rest (some e)
                  else probeLoop key rest best
    else probeLoop key rest best

/-- `TT::probe` (tt.rs lines 45-54). -/
def ttProbe (tt : TT) (key : Nat) : Option TTEntry :=
  probeLoop key (tt.buckets.getD (ttIdx tt key) []) none

/-- Replace the first entry whose key matches (the first loop of `TT::store`,
tt.rs lines 60-66); returns `none` when no entry matches. -/
def storeMatchLoop (bucket : List TTEntry) (fresh : TTEntry) : Option (List TTEntry) :=
  match bucket with
  | [] => none
  | e :: rest =>
    if e.key = fresh.key then some (fresh :: rest)
    else (storeMatchLoop rest fresh).map (e :: ·)

/-- The replacement scan of `TT::store` (tt.rs lines 69-75): iterate `(j, e)`
over the bucket keeping `replace_at`; `e` wins when it is shallower, or of
equal depth with `r.age.wrapping_sub(e.age) > 0`. -/
def replaceIdxLoop (bucket : List TTEntry) : List TTEntry → Nat → Nat → Nat
  | [], _, replace_at => replace_at
  | e :: rest, j, replace_at =>
    let r := bucket.getD replace_at defaultTTEntry
    let worse_depth := e.depth < r.depth
    let same_depth_older := e.depth = r.depth ∧ wsub8 r.age e.age > 0
    replaceIdxLoop bucket rest (j + 1)
      (if worse_depth ∨ same_depth_older then j else replace_at)

/-- Replacement index chosen by `TT::store` for a bucket without a key match. -/
def replaceIdx (bucket : List TTEntry) : Nat :=
  replaceIdxLoop bucket bucket 0 0

/-- `TT::store` restricted to one bucket (tt.rs lines 56-80): overwrite the
matching slot if the key is present, otherwise overwrite `replaceIdx`.  The
fresh entry carries the table's current age (passed in as `age`). -/
def storeBucket (bucket : List TTEntry) (key : Nat) (depth score flag : Int)
    (best : Option Move) (age : Nat) : List TTEntry :=
  let fresh : TTEntry :=
    { key := key, depth := depth, score := score, flag := flag, age := age
      best := (best.map pack_move).getD 0 }
  match storeMatchLoop bucket fresh with
  | some newBucket => newBucket
  | none => bucket.set (replaceIdx bucket) fresh

/-- `TT::store` (tt.rs lines 56-80) on the whole table. -/
def ttStore (tt : TT) (key : Nat) (depth score flag : Int) (best : Option Move) : TT :=
  let i := ttIdx tt key
  let bucket := tt.buckets.getD i []
  { tt with buckets := tt.buckets.set i (storeBucket bucket key depth score flag best tt.age) }

-- ---------------------------------------------------------------------------
-- Evaluation constants (types.rs lines 39-72)
-- ---------------------------------------------------------------------------

def TEMPO_BONUS : Int := 10

def BISHOP_PAIR_MG : Int := 28

def BISHOP_PAIR_EG : Int := 12

def CASTLED_BONUS_EARLY : Int := 40

def UNCASTLED_PENALTY_EARLY : Int := 16

def CENTER_PAWN_BONUS : Int := 12

def MINOR_DEV_PENALTY : Int := 10

def ROOK_OPEN_FILE_BONUS : Int := 12

def ROOK_SEMIOPEN_FILE_BONUS : Int := 6

def DOUBLED_PAWN_PENALTY_MG : Int := 10

def ISOLATED_PAWN_PENALTY_MG : Int := 8

/-- `PST_KING_EG` (types.rs lines 60-69). -/
def PST_KING_EG : List Int :=
  [ -50,-40,-30,-30,-30,-30,-40,-50,
    -40,-20,  0,  0,  0,  0,-20,-40,
    -30,  0, 10, 15, 15, 10,  0,-30,
    -30,  0, 15, 20, 20, 15,  0,-30,
    -30,  0, 15, 20, 20, 15,  0,-30,
    -30,  0, 10, 15, 15, 10,  0,-30,
    -40,-20,  0,  0,  0,  0,-20,-40,
    -50,-40,-30,-30,-30,-30,-40,-50 ]

/-- `PASSED_PAWN_BONUS_BY_RANK` (types.rs line 72). -/
def PASSED_PAWN_BONUS_BY_RANK : List Int :=
  [0, 5, 12, 24, 40, 70, 110, 0]

-- ---------------------------------------------------------------------------
-- Positions.  The board representation itself is the external `chess` crate;
-- a position carries the facts the engine queries from it: piece placement
-- (for the piece/color/count queries), side to move, and the oracle outputs
-- status / halfmove clock / fullmove number / hash key / checker count /
-- en-passant square / legal move list.
-- ---------------------------------------------------------------------------

structure Pos where
  placement : List (Nat × Color × Piece)
  sideToMove : Color
  status : BStatus
  halfmove : Nat
  fullmove : Nat
  key : Nat
  checkersCount : Nat
  enPassant : Option Nat
  legal : List Move
deriving DecidableEq, Repr

/-- `Board::piece_on`. -/
def pieceOn (b : Pos) (sq : Nat) : Option Piece :=
  (b.placement.find? (fun e => e.1 = sq)).map (fun e => e.2.2)

/-- `Board::color_on`. -/
def colorOn (b : Pos) (sq : Nat) : Option Color :=
  (b.placement.find? (fun e => e.1 = sq)).map (fun e => e.2.1)

/-- Squares of the pieces of one color and kind
(`b.pieces(piece) & b.color_combined(color)` as a square list). -/
def piecesOf (b : Pos) (c : Color) (p : Piece) : List Nat :=
  (b.placement.filter (fun e => e.2.1 = c ∧ e.2.2 = p)).map (fun e => e.1)

/-- `count_pieces` (types.rs lines 148-150). -/
def count_pieces (b : Pos) (p : Piece) (c : Color) : Int :=
  ((piecesOf b c p).length : Int)

/-- Sum of a per-element contribution over a square/move list (the
`for` accumulation loops of the evaluator). -/
def sumOver (l : List Nat) (f : Nat → Int) : Int :=
  (l.map f).sum

/-- Accumulate a contribution for `[Color::White, Color::Black]` in order. -/
def sumColors (f : Color → Int) : Int :=
  f Color.white + f Color.black

/-- `game_phase` (types.rs lines 84-94). -/
def game_phase (b : Pos) : Int :=
  let phase := sumColors fun c =>
    1 * count_pieces b Piece.knight c + 1 * count_pieces b Piece.bishop c +
      2 * count_pieces b Piece.rook c + 4 * count_pieces b Piece.queen c
  clamp phase 0 PHASE_MAX

/-- `pst_index_for` (types.rs lines 109-112). -/
def pst_index_for (c : Color) (sq : Nat) : Nat :=
  if c = Color.white then sq else sq ^^^ 56

/-- `insufficient_material` (types.rs lines 152-164). -/
def insufficient_material (b : Pos) : Bool :=
  let no_pawns := count_pieces b Piece.pawn Color.white + count_pieces b Piece.pawn Color.black = 0
  let no_rooks := count_pieces b Piece.rook Color.white + count_pieces b Piece.rook Color.black = 0
  let no_queens := count_pieces b Piece.queen Color.white + count_pieces b Piece.queen Color.black = 0
  if no_pawns ∧ no_rooks ∧ no_queens then
    let minors := fun c => count_pieces b Piece.knight c + count_pieces b Piece.bishop c
    minors Color.white ≤ 1 ∧ minors Color.black ≤ 1
  else false

/-- `total_material_excl_kings` (types.rs lines 166-175). -/
def total_material_excl_kings (b : Pos) : Int :=
  sumColors fun c =>
    pawnV * count_pieces b Piece.pawn c + knightV * count_pieces b Piece.knight c +
      bishopV * count_pieces b Piece.bishop c + rookV * count_pieces b Piece.rook c +
      queenV * count_pieces b Piece.queen c

/-- `is_endgame_like` (types.rs line 177). -/
def is_endgame_like (b : Pos) : Bool :=
  total_material_excl_kings b ≤ 1200

/-- `relative_rank` (types.rs lines 180-184). -/
def relative_rank (c : Color) (sq : Nat) : Nat :=
  let r := sq / 8
  if c = Color.white then r else 7 - r

/-- `file_idx` (types.rs line 185); an `i32` in the source since the
isolated/passed scans step to files −1 and 8. -/
def file_idx (sq : Nat) : Int :=
  ((sq % 8 : Nat) : Int)

/-- King square of one color; 64 when no king is present (the external
`BitBoard::to_square` on an empty board yields an out-of-range square —
every reachable chess position has both kings). -/
def kingSq (b : Pos) (c : Color) : Nat :=
  ((piecesOf b c Piece.king).head?).getD 64

/-- `is_castled` (types.rs lines 187-191): king on g1/c1 (6/2) or g8/c8
(62/58). -/
def is_castled (b : Pos) (c : Color) : Bool :=
  let ksq := kingSq b c
  if c = Color.white then ksq = 6 ∨ ksq = 2 else ksq = 62 ∨ ksq = 58

/-- `rook_file_bonus` (types.rs lines 194-208). -/
def rook_file_bonus (b : Pos) (c : Color) (sq : Nat) : Int :=
  let f := file_idx sq
  let own_on_file := (piecesOf b c Piece.pawn).any (fun ps => file_idx ps = f)
  if own_on_file then 0
  else
    let opp_on_file := (piecesOf b (opp c) Piece.pawn).any (fun ps => file_idx ps = f)
    if opp_on_file then ROOK_SEMIOPEN_FILE_BONUS else ROOK_OPEN_FILE_BONUS

/-- `is_doubled_pawn_on_file` (types.rs lines 211-218). -/
def is_doubled_pawn_on_file (b : Pos) (c : Color) (file : Int) : Bool :=
  2 ≤ (piecesOf b c Piece.pawn).countP (fun ps => file_idx ps = file)

/-- `is_isolated_pawn` (types.rs lines 219-227). -/
def is_isolated_pawn (b : Pos) (c : Color) (file : Int) : Bool :=
  let has_on := fun (ff : Int) =>
    if ff < 0 ∨ ff > 7 then false
    else (piecesOf b c Piece.pawn).any (fun ps => file_idx ps = ff)
  ¬(has_on (file - 1) ∨ has_on (file + 1))

/-- Integer range `lo..=hi` as a list (the `for rr in lo..=hi` loops). -/
def intRange (lo hi : Int) : List Int :=
  (List.range (hi + 1 - lo).toNat).map (fun i => lo + (i : Int))

/-- `is_passed_pawn` (types.rs lines 230-247). -/
def is_passed_pawn (b : Pos) (sq : Nat) (us : Color) : Bool :=
  let them := opp us
  if ¬(pieceOn b sq = some Piece.pawn ∧ colorOn b sq = some us) then false
  else
    let our_rank : Int := ((relative_rank us sq : Nat) : Int)
    let f := file_idx sq
    ([-1, 0, 1] : List Int).all fun df =>
      let ff := f + df
      if ff < 0 ∨ ff > 7 then true
      else
        (intRange (our_rank + 1) 6).all fun rr =>
          let idx : Int := if us = Color.white then rr * 8 + ff else (7 - rr) * 8 + ff
          ¬(pieceOn b idx.toNat = some Piece.pawn ∧ colorOn b idx.toNat = some them)

-- ---------------------------------------------------------------------------
-- Library evaluator: `ClassicalEval::eval` (eval.rs lines 8-183)
-- ---------------------------------------------------------------------------

/-- `ClassicalEval::eval` (eval.rs).  Follows the source section by section:
material into both sums, tempo, per-color middlegame extras, endgame king
PST / passed pawns / rook endgame terms, opposite-colored-bishop scaling and
the tapered mix.  Rust `i32` division truncates toward zero, hence
`Int.tdiv`. -/
def classical_eval (b : Pos) : Int :=
  match b.status with
  | BStatus.checkmate => -MATE
  | BStatus.stalemate => 0
  | BStatus.ongoing =>
    if insufficient_material b then 0
    else if 100 ≤ b.halfmove then 0
    else
      let sgn := fun (c : Color) => if c = b.sideToMove then (1 : Int) else -1
      let mat := fun (c : Color) =>
        pawnV * count_pieces b Piece.pawn c + knightV * count_pieces b Piece.knight c +
          bishopV * count_pieces b Piece.bishop c + rookV * count_pieces b Piece.rook c +
          queenV * count_pieces b Piece.queen c
      let mgMat := sumColors fun c => sgn c * mat c
      let egMat := sumColors fun c => sgn c * mat c
      let opening_like := (PHASE_MAX * 2) / 3 ≤ game_phase b
      let fm := b.fullmove
      let mgTempo := mgMat + TEMPO_BONUS
      let mgExtra := fun (c : Color) =>
        (if 2 ≤ count_pieces b Piece.bishop c then BISHOP_PAIR_MG else 0)
        + (if opening_like then
            (if is_castled b c then CASTLED_BONUS_EARLY
             else if 10 ≤ fm then -UNCASTLED_PENALTY_EARLY else 0)
           else 0)
        + sumOver (piecesOf b c Piece.pawn) (fun ps =>
            let rrel := relative_rank c ps
            let f := file_idx ps
            if ((c = Color.white ∧ rrel = 3) ∨ (c = Color.black ∧ rrel = 4)) ∧
                (f = 3 ∨ f = 4) then CENTER_PAWN_BONUS else 0)
        + sumOver (piecesOf b c Piece.rook) (fun rsq => rook_file_bonus b c rsq)
        + sumOver (piecesOf b c Piece.pawn) (fun ps =>
            (if is_doubled_pawn_on_file b c (file_idx ps) then -DOUBLED_PAWN_PENALTY_MG else 0)
            + (if is_isolated_pawn b c (file_idx ps) then -ISOLATED_PAWN_PENALTY_MG else 0))
        + (if opening_like then
            let home : List Nat := if c = Color.white then [1, 6, 2, 5] else [57, 62, 58, 61]
            let stuck : Int :=
              (((piecesOf b c Piece.knight) ++ (piecesOf b c Piece.bishop)).countP
                (fun sq => sq ∈ home) : Int);
            -(MINOR_DEV_PENALTY * stuck)
           else 0)
      let egExtra := fun (c : Color) =>
        if 2 ≤ count_pieces b Piece.bishop c then BISHOP_PAIR_EG else 0
      let mg0 := mgTempo + sumColors (fun c => sgn c * mgExtra c)
      let egKing := sumColors fun c =>
        sgn c * (if 1 ≤ count_pieces b Piece.king c then
                   PST_KING_EG.getD (pst_index_for c (kingSq b c)) 0
                 else 0)
      let egPassed := sumColors fun c =>
        sgn c * sumOver (piecesOf b c Piece.pawn) (fun sq =>
          if is_passed_pawn b sq c then
            PASSED_PAWN_BONUS_BY_RANK.getD (relative_rank c sq) 0
          else 0)
      let egRooks := sumColors fun c =>
        let them := opp c
        let opp_king_backrank :=
          let idx := kingSq b them / 8
          if c = Color.white then idx = 7 else idx = 0
        let opp_has_pawns := 1 ≤ count_pieces b Piece.pawn them
        sgn c * sumOver (piecesOf b c Piece.rook) (fun sq =>
          (if relative_rank c sq = 6 ∧ (opp_has_pawns ∨ opp_king_backrank) then 18 else 0)
          + sumOver (piecesOf b c Piece.pawn) (fun ps =>
              if file_idx ps = file_idx sq ∧ is_passed_pawn b ps c ∧
                  relative_rank c sq < relative_rank c ps then 20 else 0))
      let eg0 := egMat + sumColors (fun c => sgn c * egExtra c) + egKing + egPassed + egRooks
      let only_minors_and_pawns :=
        total_material_excl_kings b ≤ bishopV * 2 + pawnV * 16 ∧
          count_pieces b Piece.queen Color.white = 0 ∧
          count_pieces b Piece.queen Color.black = 0 ∧
          count_pieces b Piece.rook Color.white = 0 ∧
          count_pieces b Piece.rook Color.black = 0
      let ocb :=
        only_minors_and_pawns ∧
          count_pieces b Piece.bishop Color.white = 1 ∧
          count_pieces b Piece.bishop Color.black = 1 ∧
          (let wb := ((piecesOf b Color.white Piece.bishop).head?).getD 64
           let bb := ((piecesOf b Color.black Piece.bishop).head?).getD 64
           let is_light := fun (sq : Nat) => (sq % 8 + sq / 8) % 2 = 0
           is_light wb ≠ is_light bb)
      let mgF := if ocb then Int.tdiv (mg0 * 3) 4 else mg0
      let egF := if ocb then Int.tdiv (eg0 * 3) 4 else eg0
      let phase := game_phase b
      let mixed := Int.tdiv (mgF * phase + egF * (PHASE_MAX - phase)) (max PHASE_MAX 1)
      clamp mixed (-INF + 1) (INF - 1)

-- ---------------------------------------------------------------------------
-- Binary evaluator: `Search::evaluate` (main.rs lines 354-387)
-- ---------------------------------------------------------------------------

/-- `Search::evaluate` from `main.rs`: material summed white-positive, a
mobility bonus of a quarter legal-move per move, flipped to the side to move
and passed through the binary's (upper-open) clamp. -/
def evaluateMain (b : Pos) : Int :=
  match b.status with
  | BStatus.checkmate => -MATE
  | BStatus.stalemate => 0
  | BStatus.ongoing =>
    if insufficient_material b then 0
    else if 100 ≤ b.halfmove then 0
    else
      let score := sumColors fun c =>
        (if c = Color.white then (1 : Int) else -1) *
          (pawnV * count_pieces b Piece.pawn c + knightV * count_pieces b Piece.knight c +
            bishopV * count_pieces b Piece.bishop c + rookV * count_pieces b Piece.rook c +
            queenV * count_pieces b Piece.queen c)
      let mobility : Int := (b.legal.length : Int)
      let score2 := score + Int.tdiv mobility 4
      let pov := if b.sideToMove = Color.white then score2 else -score2
      clampMain pov (-INF + 1) (INF - 1)

/-- Concrete position: white king e1 (4), white pawn e2 (12), black king
e8 (60), white to move, the six legal moves Kd1, Kd2, Kf1, Kf2, e3, e4. -/
def posKPK : Pos :=
  { placement := [(4, Color.white, Piece.king), (60, Color.black, Piece.king),
                  (12, Color.white, Piece.pawn)]
    sideToMove := Color.white
    status := BStatus.ongoing
    halfmove := 0
    fullmove := 1
    key := 77
    checkersCount := 0
    enPassant := none
    legal := [ { src := 4, dst := 3, promo := none }, { src := 4, dst := 11, promo := none },
               { src := 4, dst := 5, promo := none }, { src := 4, dst := 13, promo := none },
               { src := 12, dst := 20, promo := none }, { src := 12, dst := 28, promo := none } ] }

/-- Concrete stalemate position (the board facts as the external crate would
report them for `7k/5Q2/6K1/8/8/8/8/8 b - - 0 1`). -/
def posStale : Pos :=
  { placement := [(63, Color.black, Piece.king), (53, Color.white, Piece.queen),
                  (46, Color.white, Piece.king)]
    sideToMove := Color.black
    status := BStatus.stalemate
    halfmove := 0
    fullmove := 1
    key := 78
    checkersCount := 0
    enPassant := none
    legal := [] }

-- ---------------------------------------------------------------------------
-- Killers and history (ordering.rs lines 8-9): `HashMap`s modelled as
-- association lists where an insert prepends and a lookup takes the first
-- match (last insert wins, as for the hash map).
-- ---------------------------------------------------------------------------

abbrev Killers : Type := List (Int × (Option Move × Option Move))

abbrev History : Type := List ((Color × Nat × Nat × Nat) × Int)

/-- `self.killers.get(&ply).unwrap_or(&(None, None))`. -/
def kGet (km : Killers) (ply : Int) : Option Move × Option Move :=
  ((km.find? (fun e => e.1 = ply)).map (fun e => e.2)).getD (none, none)

/-- `self.killers.insert(ply, v)`. -/
def kInsert (km : Killers) (ply : Int) (v : Option Move × Option Move) : Killers :=
  (ply, v) :: km

/-- `self.history.get(&key).copied().unwrap_or(0)`. -/
def hGet (h : History) (k : Color × Nat × Nat × Nat) : Int :=
  ((h.find? (fun e => e.1 = k)).map (fun e => e.2)).getD 0

/-- `self.history.insert(key, v)`. -/
def hInsert (h : History) (k : Color × Nat × Nat × Nat) (v : Int) : History :=
  (k, v) :: h

/-- The killer update on a quiet beta cutoff (search.rs lines 243-245):
read the pair for this ply (defaulting to `(None, None)` via `or_insert`),
then store `(Some(m), previous slot 0)`. -/
def killersAfterCutoff (km : Killers) (ply : Int) (m : Move) : Killers :=
  let entry := kGet km ply
  kInsert km ply (some m, entry.1)

/-- The history update on a quiet beta cutoff (search.rs lines 246-250). -/
def historyAfterCutoff (b : Pos) (h : History) (m : Move) (local_depth : Int) : History :=
  match pieceOn b m.src.val with
  | some pc =>
    let keyh := (b.sideToMove, m.src.val, m.dst.val, piece_code pc)
    hInsert h keyh (hGet h keyh + local_depth * local_depth)
  | none => h

-- ---------------------------------------------------------------------------
-- The external make-move oracle: `Board::make_move_new` belongs to the
-- out-of-scope `chess` crate, so searches are parameterized by it.
-- ---------------------------------------------------------------------------

structure Game where
  makeMove : Pos → Move → Pos

-- ---------------------------------------------------------------------------
-- Capture detection and MVV/LVA (search.rs lines 15-43; ordering.rs carries
-- the identical `is_capture` / `mvv_lva` pair)
-- ---------------------------------------------------------------------------

/-- `is_capture_quick` (search.rs lines 15-35): enemy piece on the target, or
an en-passant pawn capture (pawn moving diagonally onto the empty en-passant
square). -/
def is_capture_quick (b : Pos) (mv : Move) : Bool :=
  let us := b.sideToMove
  let them := opp us
  if colorOn b mv.dst.val = some them then true
  else
    match b.enPassant with
    | some ep_sq =>
      if mv.dst.val = ep_sq then
        match pieceOn b mv.src.val with
        | some piece =>
          piece = Piece.pawn ∧ mv.src.val % 8 ≠ mv.dst.val % 8 ∧ (pieceOn b mv.dst.val) = none
        | none => false
      else false
    | none => false

/-- `mvv_lva_quick` (search.rs lines 37-43). -/
def mvv_lva_quick (b : Pos) (mv : Move) : Int :=
  if ¬is_capture_quick b mv then 0
  else
    let victim_val := ((pieceOn b mv.dst.val).map piece_val).getD pawnV
    let attacker_val := ((pieceOn b mv.src.val).map piece_val).getD pawnV
    10000 + victim_val * 10 - attacker_val

-- ---------------------------------------------------------------------------
-- Move ordering (ordering.rs lines 43-66)
-- ---------------------------------------------------------------------------

/-- The scalar key of `ordered_moves` (ordering.rs lines 48-62). -/
def moveOrderKey (G : Game) (hist : History) (b : Pos) (tt_move : Option Move)
    (killers : Option Move × Option Move) (m : Move) : Int :=
  (if tt_move = some m then 10000000 else 0)
  + mvv_lva_quick b m
  + (if killers.1 = some m then 5000000 else 0)
  + (if killers.2 = some m then 5000000 else 0)
  + (if 0 < (G.makeMove b m).checkersCount then 1000 else 0)
  + (match pieceOn b m.src.val with
     | some pc => hGet hist (b.sideToMove, m.src.val, m.dst.val, piece_code pc)
     | none => 0)
  + (if is_capture_quick b m then 1 else 0)

/-- Insert into a descending-by-key list, after any equal key (the placement
a stable sort gives an earlier element). -/
def insertDesc (key : Move → Int) (m : Move) : List Move → List Move
  | [] => [m]
  | x :: xs => if key x < key m then m :: x :: xs else x :: insertDesc key m xs

/-- `sort_by_key(|m| Reverse(key m))`: a stable descending sort. -/
def sortDescBy (key : Move → Int) (l : List Move) : List Move :=
  l.foldl (fun acc m => insertDesc key m acc) []

/-- `Ordering::ordered_moves` (ordering.rs lines 43-66). -/
def ordered_moves (G : Game) (hist : History) (b : Pos) (tt_move : Option Move)
    (killers : Option Move × Option Move) : List Move :=
  sortDescBy (moveOrderKey G hist b tt_move killers) b.legal

-- ---------------------------------------------------------------------------
-- Search state (search.rs lines 46-53); the shared atomic stop flag is a
-- plain Bool, constant for the duration of a call.
-- ---------------------------------------------------------------------------

structure SState where
  nodes : Nat
  stop : Bool
  tt : TT
  killers : Killers
  history : History

-- ---------------------------------------------------------------------------
-- Quiescence (search.rs lines 75-114); the binary's variant differs only in
-- its noisy filter (main.rs lines 468-473) and evaluator.
-- ---------------------------------------------------------------------------

/-- The noisy candidate list of the library `qsearch` (search.rs lines
93-104): captures, promotions, and — `Q_INCLUDE_CHECKS` being true — checks,
sorted by MVV/LVA descending. -/
def qNoisyLib (G : Game) (b : Pos) : List Move :=
  let noisy := b.legal.filter (fun m =>
    let cap := is_capture_quick b m
    let promo := m.promo.isSome
    let gives_check :=
      if Q_INCLUDE_CHECKS then decide (0 < (G.makeMove b m).checkersCount) else false
    cap || gives_check || promo)
  sortDescBy (fun m => mvv_lva_quick b m) noisy

/-- The noisy candidate list of the binary's `qsearch` (main.rs lines
468-474): `if cap || gives_check { noisy.push(m) }` — promotions that are
neither captures nor checks are absent. -/
def qNoisyBin (G : Game) (b : Pos) : List Move :=
  let noisy := b.legal.filter (fun m =>
    let cap := is_capture_quick b m
    let gives_check :=
      if Q_INCLUDE_CHECKS then decide (0 < (G.makeMove b m).checkersCount) else false
    cap || gives_check)
  sortDescBy (fun m => mvv_lva_quick b m) noisy

/-- The move loop of `qsearch` (search.rs lines 106-112), recursing through
`rec` (the quiescence at the next fuel). -/
def qsearchLoop (G : Game) (rec : SState → Pos → Int → Int → Int × SState) :
    List Move → SState → Pos → Int → Int → Int × SState
  | [], st, _b, alpha, _beta => (alpha, st)
  | m :: rest, st, b, alpha, beta =>
    if st.stop then (alpha, st)
    else
      let nb := G.makeMove b m
      let r := rec st nb (-beta) (-alpha)
      let score := -r.1
      if score ≥ beta then (beta, r.2)
      else
        let alpha := if score > alpha then score else alpha
        qsearchLoop G rec rest r.2 b alpha beta

/-- `Search::qsearch` (search.rs lines 75-114), with a fuel argument bounding
the recursion depth (fuel exhaustion returns `alpha`, which no theorem below
relies on). -/
def qsearch (G : Game) : Nat → SState → Pos → Int → Int → Int × SState
  | 0, st, _b, alpha, _beta => (alpha, st)
  | fuel + 1, st, b, alpha, beta =>
    if st.stop then (alpha, st)
    else
      let st := { st with nodes := (st.nodes + 1) % 2 ^ 64 }
      match b.status with
      | BStatus.checkmate => (-MATE, st)
      | BStatus.stalemate => (0, st)
      | BStatus.ongoing =>
        if insufficient_material b then (0, st)
        else if 100 ≤ b.halfmove then (0, st)
        else
          let stand := classical_eval b
          if stand ≥ beta then (beta, st)
          else
            let alpha := if stand > alpha then stand else alpha
            if stand + Q_FUTILITY_MARGIN < alpha then (alpha, st)
            else
              qsearchLoop G (fun st2 b2 a2 b2ta => qsearch G fuel st2 b2 a2 b2ta)
                (qNoisyLib G b) st b alpha beta

-- ---------------------------------------------------------------------------
-- Negamax (search.rs lines 116-272)
-- ---------------------------------------------------------------------------

/-- The PVS + LMR block searching one move (search.rs lines 208-232), given
the recursion `rec st nb depth alpha beta isPv parentEval rep`.  Returns
`(score, state, rep_stack)`. -/
def pvsSearch (rec : SState → Pos → Int → Int → Int → Bool → Option Int → List Nat →
      Int × SState × List Nat)
    (nb : Pos) (st : SState) (alpha beta local_depth : Int) (isPv : Bool)
    (node_eval : Int) (improving endgame_like is_cap gives_chk : Bool)
    (move_index : Nat) (rep : List Nat) : Int × SState × List Nat :=
  let child_in_check := gives_chk
  let do_lmr := LMR_MIN_DEPTH ≤ local_depth ∧ ¬isPv = true ∧ ¬is_cap = true ∧
    ¬gives_chk = true ∧ ¬child_in_check = true ∧ ¬endgame_like = true ∧
    ¬improving = true ∧ 4 ≤ move_index
  if do_lmr then
    let reduce := LMR_BASE_REDUCTION + (if 6 ≤ move_index then 1 else 0)
    let new_depth := max (local_depth - 1 - reduce) 1
    let r1 := rec st nb new_depth (-alpha - 1) (-alpha) false (some node_eval) rep
    let score1 := -r1.1
    if score1 > alpha then
      let r2 := rec r1.2.1 nb (local_depth - 1) (-beta) (-alpha) false (some node_eval) r1.2.2
      (-r2.1, r2.2.1, r2.2.2)
    else (score1, r1.2.1, r1.2.2)
  else
    if move_index = 0 then
      let r1 := rec st nb (local_depth - 1) (-beta) (-alpha) true (some node_eval) rep
      (-r1.1, r1.2.1, r1.2.2)
    else
      let r1 := rec st nb (local_depth - 1) (-alpha - 1) (-alpha) false (some node_eval) rep
      let score1 := -r1.1
      if score1 > alpha ∧ score1 < beta then
        let r2 := rec r1.2.1 nb (local_depth - 1) (-beta) (-alpha) true (some node_eval) r1.2.2
        (-r2.1, r2.2.1, r2.2.2)
      else (score1, r1.2.1, r1.2.2)

/-- The move loop of `negamax` (search.rs lines 182-257).  State threaded
through: remaining moves, search state, `alpha`, `best_score`, `best_move`,
`move_index`, repetition stack.  Returns
`(state, alpha, best_score, best_move, rep_stack)`. -/
def mloop (G : Game)
    (rec : SState → Pos → Int → Int → Int → Bool → Option Int → List Nat →
      Int × SState × List Nat)
    (b : Pos) (beta ply : Int) (isPv : Bool) (node_eval : Int)
    (improving endgame_like : Bool) (local_depth : Int) :
    List Move → SState → Int → Int → Option Move → Nat → List Nat →
      SState × Int × Int × Option Move × List Nat
  | [], st, alpha, best_score, best_move, _move_index, rep =>
    (st, alpha, best_score, best_move, rep)
  | m :: rest, st, alpha, best_score, best_move, move_index, rep =>
    if st.stop then (st, alpha, best_score, best_move, rep)
    else
      let is_cap := is_capture_quick b m
      let nb := G.makeMove b m
      let gives_chk := decide (0 < nb.checkersCount)
      if (¬endgame_like = true ∧ ¬isPv = true ∧ ¬improving = true ∧ local_depth = 1 ∧
            ¬is_cap = true ∧ ¬gives_chk = true) ∧
          node_eval + Int.tdiv FUTILITY_MARGIN_BASE 2 ≤ alpha then
        mloop G rec b beta ply isPv node_eval improving endgame_like local_depth
          rest st alpha best_score best_move (move_index + 1) rep
      else if (¬endgame_like = true ∧ ¬isPv = true ∧ ¬improving = true ∧ 2 < ply ∧
            MCP_MIN_DEPTH ≤ local_depth ∧ ¬is_cap = true ∧ ¬gives_chk = true) ∧
          MCP_START_AT + local_depth.toNat +
              (if beta - alpha ≤ 2 * ASP_WINDOW then 2 else 0) ≤ move_index then
        mloop G rec b beta ply isPv node_eval improving endgame_like local_depth
          rest st alpha best_score best_move (move_index + 1) rep
      else
        let sres := pvsSearch rec nb st alpha beta local_depth isPv node_eval
          improving endgame_like is_cap gives_chk move_index rep
        let score := sres.1
        let st2 := sres.2.1
        let rep2 := sres.2.2
        let best_score2 := if score > best_score then score else best_score
        let best_move2 := if score > best_score then some m else best_move
        if score > alpha then
          if beta ≤ score then
            let st3 :=
              if ¬is_cap then
                { st2 with killers := killersAfterCutoff st2.killers ply m
                           history := historyAfterCutoff b st2.history m local_depth }
              else st2
            (st3, score, best_score2, best_move2, rep2)
          else
            mloop G rec b beta ply isPv node_eval improving endgame_like local_depth
              rest st2 score best_score2 best_move2 (move_index + 1) rep2
        else
          mloop G rec b beta ply isPv node_eval improving endgame_like local_depth
            rest st2 alpha best_score2 best_move2 (move_index + 1) rep2

/-- The TT-probe cutoff of `negamax` (search.rs lines 145-152): `some s`
when the probe returns an entry deep enough whose de-normalized score cuts,
`none` when the search must continue. -/
def ttCutoff (tt : TT) (k : Nat) (depth alpha beta ply : Int) : Option Int :=
  match ttProbe tt k with
  | some tte =>
    if depth ≤ tte.depth then
      let tt_score := from_tt tte.score ply
      if tte.flag = EXACT then some tt_score
      else if tte.flag = ALPHA ∧ tt_score ≤ alpha then some tt_score
      else if tte.flag = BETA ∧ beta ≤ tt_score then some tt_score
      else none
    else none
  | none => none

/-- `Search::negamax` (search.rs lines 116-272), fuel-bounded.  The
repetition stack grows at the head: `push` is `k :: rep`, `pop` is `.tail`;
every return path after the push pops exactly once. -/
def negamax (G : Game) : Nat → SState → Pos → Int → Int → Int → Int → Bool →
    Option Int → List Nat → Int × SState × List Nat
  | 0, st, _b, _depth, alpha, _beta, _ply, _isPv, _pe, rep => (alpha, st, rep)
  | fuel + 1, st, b, depth, alpha, beta, ply, isPv, parent_eval, rep =>
    if st.stop then (alpha, st, rep)
    else
      let st := { st with nodes := (st.nodes + 1) % 2 ^ 64 }
      match b.status with
      | BStatus.checkmate => (-MATE, st, rep)
      | BStatus.stalemate => (0, st, rep)
      | BStatus.ongoing =>
        if insufficient_material b then (0, st, rep)
        else if 100 ≤ b.halfmove then (0, st, rep)
        else
          let k := b.key
          if 2 ≤ rep.count k then (0, st, rep)
          else
            let rep := k :: rep
            match ttCutoff st.tt k depth alpha beta ply with
            | some s => (s, st, rep.tail)
            | none =>
              let in_check := decide (0 < b.checkersCount)
              let local_depth := if in_check then depth + 1 else depth
              if local_depth ≤ 0 then
                let qs := qsearch G fuel st b alpha beta
                (qs.1, qs.2, rep.tail)
              else
                let node_eval := classical_eval b
                let improving := (parent_eval.map (fun pe => decide (pe - 40 ≤ node_eval))).getD false
                let orig_alpha := alpha
                let killers := kGet st.killers ply
                let tt_move := (ttProbe st.tt k).bind (fun e => unpack_move e.best)
                let moves := ordered_moves G st.history b tt_move killers
                let endgame_like := is_endgame_like b ∨ game_phase b ≤ PHASE_MAX / 3
                let lres := mloop G
                  (fun st2 b2 d2 a2 β2 pv2 pe2 rep2 => negamax G fuel st2 b2 d2 a2 β2 (ply + 1) pv2 pe2 rep2)
                  b beta ply isPv node_eval improving (decide endgame_like) local_depth
                  moves st alpha (-INF) none 0 rep
                let stL := lres.1
                let best_score := lres.2.2.1
                let best_move := lres.2.2.2.1
                let repL := lres.2.2.2.2
                let out : Int × SState :=
                  if best_move = none ∧ b.legal.isEmpty then
                    ((if in_check then -MATE else 0), stL)
                  else
                    let flag := if best_score ≤ orig_alpha then ALPHA
                                else if beta ≤ best_score then BETA
                                else EXACT
                    (best_score,
                      { stL with
                        tt := ttStore stL.tt k local_depth (to_tt best_score ply) flag best_move })
                (out.1, out.2, repL.tail)

-- ---------------------------------------------------------------------------
-- Concrete instances used by witnesses and counterexamples
-- ---------------------------------------------------------------------------

/-- A make-move oracle that keeps the position unchanged; the theorems using
it quantify over every oracle, or only exercise paths that never move. -/
def gameId : Game := { makeMove := fun p _ => p }

/-- A fresh search state with a minimal table. -/
def st0 : SState :=
  { nodes := 0, stop := false, tt := new_from_mb 0 24, killers := [], history := [] }

/-- The quiet knight promotion a7a8n (48 → 56): no capture, no check. -/
def mQuietPromo : Move := { src := 48, dst := 56, promo := some Piece.knight }

/-- A position whose single legal move is the quiet promotion a7a8n. -/
def posQuietPromo : Pos :=
  { placement := [(48, Color.white, Piece.pawn), (4, Color.white, Piece.king),
                  (39, Color.black, Piece.king)]
    sideToMove := Color.white
    status := BStatus.ongoing
    halfmove := 0
    fullmove := 30
    key := 79
    checkersCount := 0
    enPassant := none
    legal := [mQuietPromo] }

/-- The quiet knight developing move g1f3 (6 → 21). -/
def mKnightDev : Move := { src := 6, dst := 21, promo := none }

-- ---------------------------------------------------------------------------
-- The bestmove emission race (main.rs).  Two code fragments touch the two
-- atomics after a `go`: the worker's epilogue (lines 912-918) and the `stop`
-- handler (lines 924-930).  Each fragment is two atomic steps; executions
-- are all interleavings of the two step sequences (the one-shot `swap` on
-- `bestmove_sent` stays atomic even under relaxed ordering, and `stop` is
-- only ever stored `true`, so sequential-consistency interleavings cover the
-- reachable relaxed behaviours of this pair).
-- ---------------------------------------------------------------------------

structure CState where
  stopFlag : Bool
  sent : Bool
  wpc : Nat
  hpc : Nat
  printed : Nat
deriving DecidableEq, Repr

/-- One step of the worker's epilogue (main.rs lines 912-918):
step 0 is `if stop.load(Relaxed) { return; }`, step 1 is
`if !sent.swap(true, Relaxed) { println!("bestmove …"); }`. -/
def wStep (s : CState) : CState :=
  if s.wpc = 0 then
    if s.stopFlag then { s with wpc := 2 } else { s with wpc := 1 }
  else if s.wpc = 1 then
    if s.sent then { s with wpc := 2 }
    else { s with sent := true, wpc := 2, printed := s.printed + 1 }
  else s

/-- One step of the `stop` handler (main.rs lines 924-930): step 0 is
`stop_flag.store(true, Relaxed)`, step 1 is
`if !bestmove_sent.swap(true, Relaxed) { println!("bestmove …"); }`. -/
def hStep (s : CState) : CState :=
  if s.hpc = 0 then { s with stopFlag := true, hpc := 1 }
  else if s.hpc = 1 then
    if s.sent then { s with hpc := 2 }
    else { s with sent := true, hpc := 2, printed := s.printed + 1 }
  else s

/-- Run a schedule: `true` steps the worker, `false` steps the stop handler. -/
def runRace (sched : List Bool) (s : CState) : CState :=
  sched.foldl (fun s w => if w then wStep s else hStep s) s

/-- All six interleavings of the worker's two steps (`true`) with the stop
handler's two steps (`false`), preserving each thread's program order. -/
def interleavings22 : List (List Bool) :=
  [ [true, true, false, false], [true, false, true, false],
    [true, false, false, true], [false, true, true, false],
    [false, true, false, true], [false, false, true, true] ]

/-- The state right after `go` spawns the worker: `stop_flag` reset to false,
`bestmove_sent` reset to false (main.rs lines 853-857), nothing printed. -/
def initRace : CState :=
  { stopFlag := false, sent := false, wpc := 0, hpc := 0, printed := 0 }

-- ---------------------------------------------------------------------------
-- Arithmetic facts about the move codec
-- ---------------------------------------------------------------------------

lemma land63 (n : Nat) : n &&& 63 = n % 64 := by
  have h := Nat.and_pow_two_sub_one_eq_mod n 6
  norm_num at h
  exact h

lemma land7 (n : Nat) : n &&& 7 = n % 8 := by
  have h := Nat.and_pow_two_sub_one_eq_mod n 3
  norm_num at h
  exact h

lemma promoCode_lt (p : Option Piece) : promoCode p < 8 := by
  rcases p with _ | p
  · decide
  · cases p <;> decide

/-- The three bit fields of `pack_move` occupy disjoint ranges, so the packed
word is the plain sum `4096 * promo + 64 * to + from`. -/
lemma pack_move_eq (m : Move) :
    pack_move m = 4096 * promoCode m.promo + 64 * m.dst.val + m.src.val := by
  have hf : m.src.val < 64 := m.src.isLt
  have ht : m.dst.val < 64 := m.dst.isLt
  have hp : promoCode m.promo < 8 := promoCode_lt m.promo
  unfold pack_move
  rw [land63, land63, land7, Nat.mod_eq_of_lt hf, Nat.mod_eq_of_lt ht, Nat.mod_eq_of_lt hp]
  rw [Nat.shiftLeft_eq, Nat.shiftLeft_eq]
  have e1 : m.src.val ||| m.dst.val * 2 ^ 6 = 2 ^ 6 * m.dst.val + m.src.val := by
    rw [Nat.lor_comm, mul_comm, ← Nat.mul_add_lt_is_or hf]
  rw [e1]
  have hlt : 2 ^ 6 * m.dst.val + m.src.val < 2 ^ 12 := by
    have : (2 : Nat) ^ 6 = 64 := by norm_num
    omega
  rw [Nat.lor_comm, mul_comm, ← Nat.mul_add_lt_is_or hlt]
  have h6 : (2 : Nat) ^ 6 = 64 := by norm_num
  have h12 : (2 : Nat) ^ 12 = 4096 := by norm_num
  omega

lemma unpack_move_fields (f t pc : Nat) (hf : f < 64) (ht : t < 64) (hpc : pc < 8)
    (h0 : 4096 * pc + 64 * t + f ≠ 0) :
    unpack_move (4096 * pc + 64 * t + f) =
      some { src := ⟨f, hf⟩, dst := ⟨t, ht⟩, promo := promoFromCode pc } := by
  unfold unpack_move
  rw [if_neg h0]
  have hsr : (4096 * pc + 64 * t + f) >>> 6 = (4096 * pc + 64 * t + f) / 64 := by
    rw [Nat.shiftRight_eq_div_pow]
  have hsr12 : (4096 * pc + 64 * t + f) >>> 12 = (4096 * pc + 64 * t + f) / 4096 := by
    rw [Nat.shiftRight_eq_div_pow]
  simp only [Option.some.injEq, Move.mk.injEq, Fin.mk.injEq, land63, land7, hsr, hsr12]
  refine ⟨by omega, by omega, ?_⟩
  congr 1
  omega

/-- C2 part used below: round trip on every legally-shaped move. -/
lemma unpack_pack (m : Move) (hm : LegalShape m) :
    unpack_move (pack_move m) = some m := by
  have hf : m.src.val < 64 := m.src.isLt
  have ht : m.dst.val < 64 := m.dst.isLt
  have hp : promoCode m.promo < 8 := promoCode_lt m.promo
  have h0 : 4096 * promoCode m.promo + 64 * m.dst.val + m.src.val ≠ 0 := by
    intro h
    have hz : m.src.val = 0 ∧ m.dst.val = 0 := by omega
    exact hm.1 (Fin.ext (hz.1.trans hz.2.symm))
  rw [pack_move_eq m, unpack_move_fields _ _ _ hf ht hp h0]
  have hpromo : promoFromCode (promoCode m.promo) = m.promo := by
    rcases hm.2 with h | h | h | h | h <;> rw [h] <;> rfl
  cases m
  simp_all

/-- C2: for every legally-shaped move the 16-bit codec round-trips, code 0
decodes to no move, and two legally-shaped moves pack to the same code
exactly when their (from, to, promotion) triples agree. -/
theorem c2_move_codec :
    unpack_move 0 = none ∧
    (∀ m : Move, LegalShape m → unpack_move (pack_move m) = some m) ∧
    (∀ m1 m2 : Move, LegalShape m1 → LegalShape m2 →
      (pack_move m1 = pack_move m2 ↔
        (m1.src = m2.src ∧ m1.dst = m2.dst ∧ m1.promo = m2.promo))) := by
  refine ⟨rfl, unpack_pack, ?_⟩
  intro m1 m2 h1 h2
  constructor
  · intro hpack
    have := (unpack_pack m1 h1).symm.trans (hpack ▸ unpack_pack m2 h2)
    cases m1; cases m2
    simp_all
  · intro ⟨hs, hd, hp⟩
    cases m1; cases m2
    simp_all

/-- C2 witness: the codec round-trips on the concrete moves e2e4 and e7e8q. -/
theorem c2_move_codec_witness :
    unpack_move (pack_move { src := 12, dst := 28, promo := none }) =
      some { src := 12, dst := 28, promo := none } ∧
    (pack_move { src := 52, dst := 60, promo := some Piece.queen } =
        pack_move { src := 52, dst := 60, promo := some Piece.rook } ↔
      ((52 : Fin 64) = 52 ∧ (60 : Fin 64) = 60 ∧
        some Piece.queen = some Piece.rook)) := by
  refine ⟨c2_move_codec.2.1 _ (by decide), ?_⟩
  exact c2_move_codec.2.2 { src := 52, dst := 60, promo := some Piece.queen }
    { src := 52, dst := 60, promo := some Piece.rook } (by decide) (by decide)

-- ---------------------------------------------------------------------------
-- C3: mate-score normalization round trip
-- ---------------------------------------------------------------------------

/-- C3 counterexample: at the negative ply −1 the round trip bends the score
`MATE − MAX_AB_DEPTH = 29936` to 29935, so "for all integers s and p" fails. -/
theorem c3_counterexample :
    |(29936 : Int)| ≤ INF ∧ from_tt (to_tt 29936 (-1)) (-1) ≠ 29936 := by
  constructor
  · decide
  · decide

/-- C3 amended: for every score with `|s| ≤ INF` and every non-negative ply
(plies in the search are always ≥ 0), `from_tt (to_tt s p) p = s`. -/
theorem c3_mate_score_roundtrip (s p : Int) (hs : |s| ≤ INF) (hp : 0 ≤ p) :
    from_tt (to_tt s p) p = s := by
  rw [abs_le] at hs
  unfold to_tt from_tt MATE MAX_AB_DEPTH at *
  unfold INF at hs
  split_ifs <;> omega

/-- C3 witness: the round trip at score 29950, ply 3. -/
theorem c3_mate_score_roundtrip_witness : from_tt (to_tt 29950 3) 3 = 29950 :=
  c3_mate_score_roundtrip 29950 3 (by decide) (by decide)

-- ---------------------------------------------------------------------------
-- C4: the replacement scan of TT::store
-- ---------------------------------------------------------------------------

/-- A full bucket with no key match: four entries of equal depth, ages
3, 5, 5, 5, while the table's current age is 5.  The oldest slot is index 0. -/
def c4Bucket : List TTEntry :=
  [ { key := 11, depth := 2, score := 0, flag := 0, age := 3, best := 0 },
    { key := 12, depth := 2, score := 0, flag := 0, age := 5, best := 0 },
    { key := 13, depth := 2, score := 0, flag := 0, age := 5, best := 0 },
    { key := 14, depth := 2, score := 0, flag := 0, age := 5, best := 0 } ]

/-- C4: on an all-equal-depth bucket with ages 3,5,5,5 the scan overwrites
index 1 — a slot whose age equals the current age — and leaves the strictly
older age-3 slot 0 in place.  `r.age.wrapping_sub(e.age) > 0` holds whenever
the two ages merely differ, so the tie-break does not select the oldest age. -/
theorem c4_store_replaces_newer_slot :
    replaceIdx c4Bucket = 1 ∧
    (c4Bucket.getD 0 defaultTTEntry).depth = (c4Bucket.getD 1 defaultTTEntry).depth ∧
    (c4Bucket.getD 0 defaultTTEntry).age = 3 ∧
    (c4Bucket.getD 1 defaultTTEntry).age = 5 ∧
    (storeBucket c4Bucket 99 7 0 EXACT none 5).map TTEntry.key = [11, 99, 13, 14] ∧
    ((storeBucket c4Bucket 99 7 0 EXACT none 5).getD 1 defaultTTEntry).age = 5 := by
  decide

-- ---------------------------------------------------------------------------
-- C7: TT sizing
-- ---------------------------------------------------------------------------

lemma pow2Loop_is_pow (n : Nat) :
    ∀ fuel p k, p = 2 ^ k → ∃ j, pow2Loop n fuel p = 2 ^ j := by
  intro fuel
  induction fuel with
  | zero => intro p k hp; exact ⟨k, hp⟩
  | succ fuel ih =>
    intro p k hp
    unfold pow2Loop
    split
    · exact ih (p * 2) (k + 1) (by rw [hp, pow_succ])
    · exact ⟨k, hp⟩

lemma pow2Loop_le (n : Nat) :
    ∀ fuel p, p ≤ n → pow2Loop n fuel p ≤ n := by
  intro fuel
  induction fuel with
  | zero => intro p hp; exact hp
  | succ fuel ih =>
    intro p hp
    unfold pow2Loop
    split
    · exact ih (p * 2) (by omega)
    · exact hp

/-- C7 counterexample: with a zero megabyte budget the table still holds 4
entries (one bucket of associativity 4), exceeding the claimed bound
`0 · 1_048_576 / sizeof = 0` (shown for the actual 24-byte entry size). -/
theorem c7_counterexample_zero_budget :
    ttEntryCount (new_from_mb 0 24) = 4 ∧
    ¬ ttEntryCount (new_from_mb 0 24) ≤ 0 * 1048576 / 24 := by
  decide

/-- C7 amended: for every megabyte budget and every entry size, the bucket
count is a power of two, the associativity is exactly 4, and the total entry
count is at most `max (TT_MB · 1_048_576 / sizeof) 4` — the unconditional
claim holds whenever the byte budget covers at least four entries, and the
clamp to one minimal bucket is the only exception. -/
theorem c7_tt_capacity (tt_mb entrySz : Nat) :
    (∃ k, (new_from_mb tt_mb entrySz).buckets.length = 2 ^ k) ∧
    TT_ASSOC = 4 ∧
    ttEntryCount (new_from_mb tt_mb entrySz) ≤
      max (tt_mb * 1048576 / max entrySz 1) 4 := by
  have hlen : (new_from_mb tt_mb entrySz).buckets.length =
      pow2Loop (max (max (tt_mb * (1024 * 1024) / max entrySz 1) TT_ASSOC / TT_ASSOC) 1)
        (max (max (tt_mb * (1024 * 1024) / max entrySz 1) TT_ASSOC / TT_ASSOC) 1) 1 := by
    simp [new_from_mb, List.length_replicate]
  refine ⟨?_, rfl, ?_⟩
  · rw [hlen]
    exact pow2Loop_is_pow _ _ 1 0 (by norm_num)
  · unfold ttEntryCount
    rw [hlen]
    simp only [TT_ASSOC]
    have h1024 : tt_mb * (1024 * 1024) = tt_mb * 1048576 := by ring
    rw [h1024]
    set bb := tt_mb * 1048576 / max entrySz 1 with hbb
    have h4 : (4 : Nat) ≤ max bb 4 := le_max_right _ _
    have hbkt : max (max bb 4 / 4) 1 = max bb 4 / 4 := by omega
    rw [hbkt]
    have hle := pow2Loop_le (max bb 4 / 4) (max bb 4 / 4) 1 (by omega)
    omega

-- ---------------------------------------------------------------------------
-- C9: the binary evaluator versus the library evaluator
-- ---------------------------------------------------------------------------

/-- C9 counterexample: on king+pawn versus king the library evaluator gives
105 centipawns (material, tempo, isolated-pawn penalty, passed-pawn and king
PST endgame terms, tapered at phase 0) while the binary's evaluator gives 101
(material plus a quarter of six legal moves), so the two disagree. -/
theorem c9_counterexample :
    classical_eval posKPK = 105 ∧ evaluateMain posKPK = 101 ∧
      evaluateMain posKPK ≠ classical_eval posKPK := by
  refine ⟨by decide, by decide, by decide⟩

/-- C9 amended: the two evaluators agree on every terminal short-circuit —
checkmate, stalemate, insufficient material, and a halfmove clock at or past
100 — and only there is agreement guaranteed. -/
theorem c9_terminal_agreement (b : Pos)
    (h : b.status ≠ BStatus.ongoing ∨ insufficient_material b = true ∨ 100 ≤ b.halfmove) :
    evaluateMain b = classical_eval b := by
  unfold evaluateMain classical_eval
  cases hst : b.status with
  | checkmate => rfl
  | stalemate => rfl
  | ongoing =>
    rcases h with h | h | h
    · exact absurd hst h
    · simp [h]
    · by_cases hi : insufficient_material b = true <;> simp [hi, h]

/-- C9 witness: the agreement at the concrete stalemate position. -/
theorem c9_terminal_agreement_witness : evaluateMain posStale = classical_eval posStale :=
  c9_terminal_agreement posStale (by decide)

-- ---------------------------------------------------------------------------
-- C8 and C1: the repetition stack through negamax
-- ---------------------------------------------------------------------------

lemma pvsSearch_rep
    (rec : SState → Pos → Int → Int → Int → Bool → Option Int → List Nat →
      Int × SState × List Nat)
    (hrec : ∀ st b d a β pv pe r, (rec st b d a β pv pe r).2.2 = r)
    (nb : Pos) (st : SState) (alpha beta local_depth : Int) (isPv : Bool)
    (node_eval : Int) (improving endgame_like is_cap gives_chk : Bool)
    (move_index : Nat) (rep : List Nat) :
    (pvsSearch rec nb st alpha beta local_depth isPv node_eval improving
      endgame_like is_cap gives_chk move_index rep).2.2 = rep := by
  unfold pvsSearch
  simp only [hrec]
  split_ifs <;> rfl

lemma mloop_rep (G : Game)
    (rec : SState → Pos → Int → Int → Int → Bool → Option Int → List Nat →
      Int × SState × List Nat)
    (hrec : ∀ st b d a β pv pe r, (rec st b d a β pv pe r).2.2 = r)
    (b : Pos) (beta ply : Int) (isPv : Bool) (node_eval : Int)
    (improving endgame_like : Bool) (local_depth : Int) :
    ∀ (moves : List Move) (st : SState) (alpha best_score : Int)
      (best_move : Option Move) (move_index : Nat) (rep : List Nat),
      (mloop G rec b beta ply isPv node_eval improving endgame_like local_depth
        moves st alpha best_score best_move move_index rep).2.2.2.2 = rep := by
  intro moves
  induction moves with
  | nil => intro st alpha bs bm mi rep; rfl
  | cons m rest ih =>
    intro st alpha bs bm mi rep
    have hpvs := pvsSearch_rep rec hrec (G.makeMove b m) st alpha beta local_depth
      isPv node_eval improving endgame_like (is_capture_quick b m)
      (decide (0 < (G.makeMove b m).checkersCount)) mi rep
    simp only [mloop, hpvs]
    split_ifs <;> first | rfl | apply ih

set_option maxHeartbeats 2000000 in
/-- C8: every call to `negamax` returns the repetition stack exactly as it
received it — the key pushed after the threefold test is popped on the TT
cutoff, the drop into quiescence, the no-legal-moves return and normal
completion alike, at every fuel, for every position, window and state. -/
theorem c8_rep_stack_balanced (G : Game) :
    ∀ (fuel : Nat) (st : SState) (b : Pos) (depth alpha beta ply : Int) (isPv : Bool)
      (pe : Option Int) (rep : List Nat),
      (negamax G fuel st b depth alpha beta ply isPv pe rep).2.2 = rep := by
  intro fuel
  induction fuel with
  | zero => intros; rfl
  | succ fuel ih =>
    intro st b depth alpha beta ply isPv pe rep
    have hrec : ∀ st2 b2 d2 a2 β2 pv2 pe2 rep2,
        (negamax G fuel st2 b2 d2 a2 β2 (ply + 1) pv2 pe2 rep2).2.2 = rep2 :=
      fun st2 b2 d2 a2 β2 pv2 pe2 rep2 => ih st2 b2 d2 a2 β2 (ply + 1) pv2 pe2 rep2
    have hml := mloop_rep G
      (fun st2 b2 d2 a2 β2 pv2 pe2 rep2 =>
        negamax G fuel st2 b2 d2 a2 β2 (ply + 1) pv2 pe2 rep2)
      hrec
    simp only [negamax]
    rw [hml]
    repeat' first | rfl | split

/-- C1: entering `negamax` with an Ongoing position of sufficient material,
halfmove clock below 100, the stop flag unset, and a hash already occurring
at least twice on the repetition stack returns 0 — for every depth, window,
ply, PV flag, parent eval and transposition-table content. -/
theorem c1_threefold_draw (G : Game) (fuel : Nat) (st : SState) (b : Pos)
    (depth alpha beta ply : Int) (isPv : Bool) (pe : Option Int) (rep : List Nat)
    (hstop : st.stop = false) (hst : b.status = BStatus.ongoing)
    (hins : insufficient_material b = false) (hhm : b.halfmove < 100)
    (hrep : 2 ≤ rep.count b.key) :
    (negamax G (fuel + 1) st b depth alpha beta ply isPv pe rep).1 = 0 := by
  have hhm2 : ¬ 100 ≤ b.halfmove := by omega
  simp only [negamax, hstop, hst, hins, hhm2, hrep, Bool.false_eq_true, if_false,
    if_true, ite_false, ite_true, if_pos, Bool.false_eq_true]

/-- C1 witness: a concrete call on the king-pawn-king position whose key 77
already sits twice on the stack returns 0. -/
theorem c1_threefold_draw_witness :
    (negamax gameId 1 st0 posKPK 5 (-100) 100 0 true none [77, 77]).1 = 0 :=
  c1_threefold_draw gameId 0 st0 posKPK 5 (-100) 100 0 true none [77, 77]
    (by decide) (by decide) (by decide) (by decide) (by decide)

-- ---------------------------------------------------------------------------
-- C5: the killer update on a quiet beta cutoff
-- ---------------------------------------------------------------------------

/-- C5 counterexample: two successive quiet cutoffs by the same move at the
same ply leave the move in both killer slots — the update never guards
against duplication, refuting "the two killer slots never hold the same
move". -/
theorem c5_counterexample :
    (kGet (killersAfterCutoff (killersAfterCutoff [] 3 mKnightDev) 3 mKnightDev) 3).1 =
        some mKnightDev ∧
    (kGet (killersAfterCutoff (killersAfterCutoff [] 3 mKnightDev) 3 mKnightDev) 3).2 =
        some mKnightDev := by
  decide

/-- C5 amended: after a quiet cutoff by `m` at ply `p`, slot 0 holds `m` and
slot 1 holds the previous slot 0; other plies are untouched; and the two
slots end up equal exactly when slot 0 already held `m` — the code never
deduplicates. -/
theorem c5_killers_update (km : Killers) (ply : Int) (m : Move) :
    kGet (killersAfterCutoff km ply m) ply = (some m, (kGet km ply).1) ∧
    (∀ ply2, ply2 ≠ ply → kGet (killersAfterCutoff km ply m) ply2 = kGet km ply2) ∧
    ((kGet (killersAfterCutoff km ply m) ply).2 = some m ↔ (kGet km ply).1 = some m) := by
  have hmain : kGet (killersAfterCutoff km ply m) ply = (some m, (kGet km ply).1) := by
    simp [killersAfterCutoff, kInsert, kGet]
  refine ⟨hmain, ?_, ?_⟩
  · intro ply2 hne
    simp [killersAfterCutoff, kInsert, kGet, List.find?_cons, Ne.symm hne]
  · rw [hmain]

/-- C5 witness: the update from the empty table at ply 3, and ply 4 left
unchanged. -/
theorem c5_killers_update_witness :
    kGet (killersAfterCutoff [] 3 mKnightDev) 3 = (some mKnightDev, none) ∧
    kGet (killersAfterCutoff [] 3 mKnightDev) 4 = kGet [] 4 := by
  refine ⟨?_, (c5_killers_update [] 3 mKnightDev).2.1 4 (by decide)⟩
  have h := (c5_killers_update ([] : Killers) 3 mKnightDev).1
  simpa using h

-- ---------------------------------------------------------------------------
-- C6: the noisy move lists of quiescence
-- ---------------------------------------------------------------------------

lemma mem_insertDesc (key : Move → Int) (m x : Move) (l : List Move) :
    x ∈ insertDesc key m l ↔ x = m ∨ x ∈ l := by
  induction l with
  | nil => simp [insertDesc]
  | cons y ys ih =>
    unfold insertDesc
    split
    · simp [List.mem_cons]
    · simp only [List.mem_cons, ih]
      tauto

lemma mem_sortDescBy (key : Move → Int) (l : List Move) (x : Move) :
    x ∈ sortDescBy key l ↔ x ∈ l := by
  have hgen : ∀ (l2 : List Move) (acc : List Move),
      x ∈ l2.foldl (fun acc m => insertDesc key m acc) acc ↔ x ∈ acc ∨ x ∈ l2 := by
    intro l2
    induction l2 with
    | nil => intro acc; simp
    | cons m rest ih =>
      intro acc
      simp only [List.foldl_cons, ih, mem_insertDesc, List.mem_cons]
      tauto
  have := hgen l []
  simpa [sortDescBy] using this

lemma pairwise_insertDesc (key : Move → Int) (m : Move) (l : List Move)
    (h : l.Pairwise (fun a c => key c ≤ key a)) :
    (insertDesc key m l).Pairwise (fun a c => key c ≤ key a) := by
  induction l with
  | nil => simp [insertDesc]
  | cons y ys ih =>
    rcases List.pairwise_cons.mp h with ⟨hy, hys⟩
    unfold insertDesc
    split
    · rename_i hlt
      refine List.pairwise_cons.mpr ⟨?_, h⟩
      intro z hz
      rcases List.mem_cons.mp hz with rfl | hz2
      · exact le_of_lt hlt
      · exact le_trans (hy z hz2) (le_of_lt hlt)
    · rename_i hnlt
      refine List.pairwise_cons.mpr ⟨?_, ih hys⟩
      intro z hz
      rcases (mem_insertDesc key m z ys).mp hz with rfl | hz2
      · exact not_lt.mp hnlt
      · exact hy z hz2

lemma pairwise_sortDescBy (key : Move → Int) (l : List Move) :
    (sortDescBy key l).Pairwise (fun a c => key c ≤ key a) := by
  have hgen : ∀ (l2 : List Move) (acc : List Move),
      acc.Pairwise (fun a c => key c ≤ key a) →
      (l2.foldl (fun acc m => insertDesc key m acc) acc).Pairwise
        (fun a c => key c ≤ key a) := by
    intro l2
    induction l2 with
    | nil => intro acc hacc; simpa using hacc
    | cons m rest ih =>
      intro acc hacc
      simp only [List.foldl_cons]
      exact ih _ (pairwise_insertDesc key m acc hacc)
  exact hgen l [] (by simp)

/-- C6 amended: the library `qsearch` (search.rs) builds its candidate list
from exactly the legal captures, promotions and checking moves, in
MVV/LVA-descending order; the binary's `qsearch` (main.rs) admits exactly
the legal captures and checking moves — quiet promotions are absent there. -/
theorem c6_qsearch_noisy (G : Game) (b : Pos) :
    (∀ m : Move, m ∈ qNoisyLib G b ↔ m ∈ b.legal ∧
      (is_capture_quick b m = true ∨ m.promo.isSome = true ∨
        0 < (G.makeMove b m).checkersCount)) ∧
    (∀ m : Move, m ∈ qNoisyBin G b ↔ m ∈ b.legal ∧
      (is_capture_quick b m = true ∨ 0 < (G.makeMove b m).checkersCount)) ∧
    (qNoisyLib G b).Pairwise (fun a c => mvv_lva_quick b c ≤ mvv_lva_quick b a) ∧
    (qNoisyBin G b).Pairwise (fun a c => mvv_lva_quick b c ≤ mvv_lva_quick b a) := by
  refine ⟨?_, ?_, ?_, ?_⟩
  · intro m
    unfold qNoisyLib
    rw [mem_sortDescBy, List.mem_filter]
    simp only [Q_INCLUDE_CHECKS, if_true, Bool.or_eq_true, decide_eq_true_eq]
    tauto
  · intro m
    unfold qNoisyBin
    rw [mem_sortDescBy, List.mem_filter]
    simp only [Q_INCLUDE_CHECKS, if_true, Bool.or_eq_true, decide_eq_true_eq]
  · exact pairwise_sortDescBy _ _
  · exact pairwise_sortDescBy _ _

/-- C6 counterexample: the quiet knight promotion a7a8n is legal, noisy per
the claim (a promotion), yet the binary's `qsearch` candidate list is empty
— the compiled quiescence never expands it. -/
theorem c6_counterexample :
    mQuietPromo ∈ posQuietPromo.legal ∧
    mQuietPromo.promo.isSome = true ∧
    is_capture_quick posQuietPromo mQuietPromo = false ∧
    (gameId.makeMove posQuietPromo mQuietPromo).checkersCount = 0 ∧
    qNoisyBin gameId posQuietPromo = [] ∧
    qNoisyLib gameId posQuietPromo = [mQuietPromo] := by
  decide

-- ---------------------------------------------------------------------------
-- C10: exactly one bestmove per go
-- ---------------------------------------------------------------------------

/-- C10: whether the worker completes naturally (no handler steps) or a
`stop` command races with it in any interleaving, exactly one `bestmove` is
printed — the one-shot `bestmove_sent.swap(true)` admits a single winner and
the handler always reaches its swap. -/
theorem c10_exactly_one_bestmove :
    (runRace [true, true] initRace).printed = 1 ∧
    (∀ sched ∈ interleavings22, (runRace sched initRace).printed = 1) := by
  decide

/-- C10 witness: the schedule where the `stop` handler runs entirely before
the worker's epilogue — the handler prints, the worker stays silent. -/
theorem c10_exactly_one_bestmove_witness :
    (runRace [false, false, true, true] initRace).printed = 1 :=
  c10_exactly_one_bestmove.2 [false, false, true, true] (by decide)

end Engine
